import Mathlib

/-!
Shallow embedding of the archery environment (`src/archery_env.py`,
class `ArcheryGymEnv`) and verification of the frozen claims about it.

Modelling conventions:
* Machine floating-point values are idealised as exact rationals (ℚ); every
  value the program actually holds is a dyadic rational, and all the
  arithmetic in the integration loop (`+`, `*`, comparisons) is modelled
  exactly.  Quantities that are irrational in the idealised reading
  (`math.cos`, `math.sin`, `math.hypot`) live in ℝ.
* The unbounded `while True:` loop of `step` is modelled with explicit
  fuel (`loopRun`); `none` means the fuel ran out before the loop exited.
  The loop's exit test `math.hypot(dx, dy) < target_radius + 10` is
  modelled by the equivalent exact-rational test
  `dx^2 + dy^2 < (target_radius + 10)^2`; the lemma
  `finalDist_lt_iff_hitNow` proves the two forms equivalent over ℝ.
* The numpy `Generator` attached by `gymnasium.Env.reset(seed=...)` is
  library code; it is modelled as a deterministic reseedable stream
  (`rngInit` / `rngIntegers`) satisfying its documented contract:
  `default_rng(seed)` is a pure function of the seed, and
  `integers(lo, hi)` returns a value in `[lo, hi)` and advances the state.
-/

namespace Archery

/-- `self.width = 800` (`__init__`). -/
def width : ℚ := 800

/-- `self.height = 600` (`__init__`). -/
def height : ℚ := 600

/-- `self.gravity = 0.5` (`__init__`). -/
def gravity : ℚ := 1/2

/-- `self.target_radius = 20` (`__init__`). -/
def target_radius : ℚ := 20

/-- `self.start_pos = np.array([50.0, self.height - 50.0])` (`__init__`). -/
def start_pos : ℚ × ℚ := (50, height - 50)

/-- `np.interp(x, [x0, x1], [y0, y1])`: linear interpolation between the two
sample points, clamped to `y0` below `x0` and to `y1` above `x1`
(numpy's documented behaviour for values outside the sample range). -/
def interp (x x0 x1 y0 y1 : ℚ) : ℚ :=
  if x ≤ x0 then y0
  else if x1 ≤ x then y1
  else y0 + (x - x0) * (y1 - y0) / (x1 - x0)

/-- `angle_deg = np.interp(raw_angle, [-1, 1], [0, 85])` (`step`, line 63). -/
def angleDeg (rawAngle : ℚ) : ℚ := interp rawAngle (-1) 1 0 85

/-- `power_val = np.interp(raw_power, [-1, 1], [15, 60])` (`step`, line 65). -/
def powerVal (rawPower : ℚ) : ℚ := interp rawPower (-1) 1 15 60

/-- `rad_angle = math.radians(angle_deg)` followed by
`arrow_vel = (cos(rad_angle) * power_val, -sin(rad_angle) * power_val)`
(`step`, lines 67–74). -/
noncomputable def initVel (rawAngle rawPower : ℚ) : ℝ × ℝ :=
  let rad : ℝ := (angleDeg rawAngle : ℝ) * Real.pi / 180
  (Real.cos rad * (powerVal rawPower : ℝ), -(Real.sin rad * (powerVal rawPower : ℝ)))

/-- The in-flight simulation state: `self.arrow_pos` and `self.arrow_vel`. -/
structure SimState where
  px : ℚ
  py : ℚ
  vx : ℚ
  vy : ℚ
deriving DecidableEq

/-- One integration tick (`step`, lines 80–81):
`self.arrow_pos += self.arrow_vel` and then `self.arrow_vel[1] += self.gravity`.
The position update uses the velocity from before the gravity update. -/
def tick (s : SimState) : SimState :=
  { px := s.px + s.vx, py := s.py + s.vy, vx := s.vx, vy := s.vy + gravity }

/-- Squared Euclidean distance from the arrow to the target
(the square of `dist = math.hypot(...)`, `step`, line 86). -/
def dist2 (s : SimState) (t : ℚ × ℚ) : ℚ :=
  (s.px - t.1)^2 + (s.py - t.2)^2

/-- `dist = math.hypot(arrow_pos[0] - target_pos[0], arrow_pos[1] - target_pos[1])`
(`step`, line 86), over ℝ. -/
noncomputable def finalDist (s : SimState) (t : ℚ × ℚ) : ℝ :=
  Real.sqrt (((s.px - t.1 : ℚ) : ℝ)^2 + ((s.py - t.2 : ℚ) : ℝ)^2)

/-- The hit test `dist < self.target_radius + 10` (`step`, line 88), stated in
the equivalent squared form so it is decidable over ℚ;
`finalDist_lt_iff_hitNow` below proves the equivalence with the source's
`math.hypot` form. -/
def hitNow (s : SimState) (t : ℚ × ℚ) : Prop :=
  dist2 s t < (target_radius + 10)^2

instance hitNow.instDec (s : SimState) (t : ℚ × ℚ) : Decidable (hitNow s t) :=
  inferInstanceAs (Decidable (dist2 s t < (target_radius + 10)^2))

/-- The out-of-bounds test (`step`, lines 93–96):
`arrow_pos[0] > width or arrow_pos[0] < 0 or arrow_pos[1] > height or arrow_pos[1] < -100`. -/
def oob (s : SimState) : Prop :=
  width < s.px ∨ s.px < 0 ∨ height < s.py ∨ s.py < -100

instance oob.instDec (s : SimState) : Decidable (oob s) :=
  inferInstanceAs (Decidable (width < s.px ∨ s.px < 0 ∨ height < s.py ∨ s.py < -100))

/-- The `while True:` integration loop of `step` (lines 79–98): advance one
tick, then check the hit condition first and the out-of-bounds condition
second; exit with the terminal state and the `hit_target` flag.  The source
loop is unbounded; `fuel` is an artifact of the embedding and `none` means
the fuel was exhausted before the loop exited on its own. -/
def loopRun (t : ℚ × ℚ) : ℕ → SimState → Option (SimState × Bool)
  | 0, _ => none
  | fuel+1, s =>
    let s2 := tick s
    if hitNow s2 t then some (s2, true)
    else if oob s2 then some (s2, false)
    else loopRun t fuel s2

/-- The flight part of `step`: install the launch velocity into the arrow
state at the current arrow position (lines 73–74) and run the loop. -/
def runStep (pos vel t : ℚ × ℚ) (fuel : ℕ) : Option (SimState × Bool) :=
  loopRun t fuel { px := pos.1, py := pos.2, vx := vel.1, vy := vel.2 }

/-- The reward computation of `step` (lines 100–103):
`reward = 100.0 if hit_target else -1.0 * (dist / 100.0)`, where `dist` is
the Euclidean distance at the tick termination was detected. -/
noncomputable def rewardOf (t : ℚ × ℚ) (s : SimState) (hit : Bool) : ℝ :=
  if hit then 100 else -1 * (finalDist s t / 100)

/-- The per-episode attributes set by `reset`: `self.target_pos`,
`self.arrow_pos`, `self.arrow_vel`. -/
structure Env where
  target : ℚ × ℚ
  arrowPos : ℚ × ℚ
  arrowVel : ℚ × ℚ
deriving DecidableEq

/-- `_get_obs` (lines 107–113): each coordinate divided by the corresponding
world dimension, with no clamping. -/
def getObs (e : Env) : ℚ × ℚ × ℚ × ℚ :=
  (e.arrowPos.1 / width, e.arrowPos.2 / height,
   e.target.1 / width, e.target.2 / height)

/-- A `step` call seen from the environment object: run the flight loop from
the current arrow position with the freshly installed velocity, and store the
terminal arrow position/velocity back into the object (the source mutates
`self.arrow_pos` / `self.arrow_vel` in place). -/
def stepEnv (e : Env) (vel : ℚ × ℚ) (fuel : ℕ) : Option (Env × Bool) :=
  (runStep e.arrowPos vel e.target fuel).map
    (fun r => ({ target := e.target, arrowPos := (r.1.px, r.1.py),
                 arrowVel := (r.1.vx, r.1.vy) }, r.2))

/-- Outcome of invoking `step` on the Python object.  `attrError` models the
`AttributeError` raised when `step` is called before any `reset` (the
attributes `self.target_pos` / `self.arrow_pos` do not exist yet);
`normal` is an ordinary `StepResult` return. -/
inductive CallResult
  | attrError
  | normal (e : Env) (hit : Bool)
deriving DecidableEq

/-- Invoking `step` on the object: before any `reset` the per-episode
attributes are missing and the call raises (`attrError`); otherwise the
flight runs from whatever arrow state the object currently holds — the
source performs no phase tracking whatsoever. -/
def stepCall : Option Env → ℚ × ℚ → ℕ → Option CallResult
  | none, _, _ => some CallResult.attrError
  | some e, v, fuel => (stepEnv e v fuel).map (fun r => CallResult.normal r.1 r.2)

/-- Modelled from the library contract of numpy's seeded `Generator` (the
spec's reseedable pseudo-random source, §4.1/§9): `default_rng(seed)` is a
pure function of the seed.  Only determinism in the seed is used by the
claims. -/
def rngInit (seed : ℕ) : ℕ := seed

/-- Modelled from the library contract: advancing the generator state is a
pure function of the previous state (a 64-bit linear congruential mix). -/
def rngNext (st : ℕ) : ℕ :=
  (st * 6364136223846793005 + 1442695040888963407) % 2^64

/-- Modelled from the library contract of `Generator.integers(lo, hi)`:
returns an integer in `[lo, hi)` (for `lo < hi`) determined by the state,
together with the advanced state. -/
def rngIntegers (st lo hi : ℕ) : ℕ × ℕ :=
  (lo + st % (hi - lo), rngNext st)

/-- The Python object's cross-episode state: the generator stream
(`self.np_random`) and the per-episode attributes (absent before the first
`reset`). -/
structure Machine where
  rng : ℕ
  env : Option Env
deriving DecidableEq

/-- `reset(seed)` with an integer seed (lines 44–53):
`super().reset(seed=seed)` replaces `self.np_random` with a freshly seeded
generator, then `target_pos` draws
`integers(300, width - 50)` and `integers(50, height - 200)`, the arrow is
returned to `start_pos` and the velocity zeroed. -/
def resetWith (_m : Machine) (seed : ℕ) : Machine :=
  let st0 := rngInit seed
  let d1 := rngIntegers st0 300 (800 - 50)
  let d2 := rngIntegers d1.2 50 (600 - 200)
  { rng := d2.2,
    env := some { target := ((d1.1 : ℚ), (d2.1 : ℚ)),
                  arrowPos := start_pos, arrowVel := (0, 0) } }

/-! ### Basic lemmas about the embedding -/

/-- The loop's squared hit test is equivalent to the source's
`math.hypot(dx, dy) < target_radius + 10` test. -/
theorem finalDist_lt_iff_hitNow (s : SimState) (t : ℚ × ℚ) :
    finalDist s t < ((target_radius + 10 : ℚ) : ℝ) ↔ hitNow s t := by
  unfold finalDist hitNow target_radius
  rw [Real.sqrt_lt' (by norm_num)]
  constructor
  · intro h
    have h2 : ((dist2 s t : ℚ) : ℝ) < ((30 : ℚ)^2 : ℚ) := by
      unfold dist2; push_cast; push_cast at h; norm_num at h ⊢; linarith
    norm_num
    exact_mod_cast h2
  · intro h
    have h2 : ((dist2 s t : ℚ) : ℝ) < (((20 + 10 : ℚ))^2 : ℝ) := by
      exact_mod_cast (by norm_num at h ⊢; exact h : dist2 s t < (20 + 10 : ℚ)^2)
    unfold dist2 at h2; push_cast at h2 ⊢; linarith

/-- The horizontal velocity is never changed during flight. -/
theorem vx_iterate (s : SimState) (n : ℕ) : (tick^[n] s).vx = s.vx := by
  induction n with
  | zero => rfl
  | succ n ih => rw [Function.iterate_succ_apply', tick]; exact ih

/-- The vertical velocity after `n` ticks. -/
theorem vy_iterate (s : SimState) (n : ℕ) :
    (tick^[n] s).vy = s.vy + n * gravity := by
  induction n with
  | zero => simp
  | succ n ih =>
    rw [Function.iterate_succ_apply']
    show (tick^[n] s).vy + gravity = _
    rw [ih]; push_cast; ring

/-- The horizontal position after `n` ticks. -/
theorem px_iterate (s : SimState) (n : ℕ) :
    (tick^[n] s).px = s.px + n * s.vx := by
  induction n with
  | zero => simp
  | succ n ih =>
    rw [Function.iterate_succ_apply']
    show (tick^[n] s).px + (tick^[n] s).vx = _
    rw [ih, vx_iterate]; push_cast; ring

/-- The vertical position after `n` ticks (discrete free fall). -/
theorem py_iterate (s : SimState) (n : ℕ) :
    (tick^[n] s).py = s.py + n * s.vy + gravity * ((n : ℚ) * ((n : ℚ) - 1)) / 2 := by
  induction n with
  | zero => simp
  | succ n ih =>
    rw [Function.iterate_succ_apply']
    show (tick^[n] s).py + (tick^[n] s).vy = _
    rw [ih, vy_iterate]; push_cast; ring

/-- Unfolding equation for one pass of the loop. -/
theorem loopRun_succ (t : ℚ × ℚ) (fuel : ℕ) (s : SimState) :
    loopRun t (fuel+1) s =
      (if hitNow (tick s) t then some (tick s, true)
       else if oob (tick s) then some (tick s, false)
       else loopRun t fuel (tick s)) := rfl

/-- If the loop exits with the hit flag, the hit condition holds at the
returned terminal state. -/
theorem loopRun_hit (t : ℚ × ℚ) : ∀ (fuel : ℕ) (s s2 : SimState),
    loopRun t fuel s = some (s2, true) → hitNow s2 t := by
  intro fuel
  induction fuel with
  | zero => intro s s2 h; simp [loopRun] at h
  | succ n ih =>
    intro s s2 h
    rw [loopRun_succ] at h
    split_ifs at h with h1 h2
    · simp only [Option.some.injEq, Prod.mk.injEq] at h
      obtain ⟨rfl, -⟩ := h
      exact h1
    · simp at h
    · exact ih (tick s) s2 h

/-- If the loop exits without the hit flag, the hit condition failed at the
returned terminal state (it is checked first) and the out-of-bounds
condition holds there. -/
theorem loopRun_miss (t : ℚ × ℚ) : ∀ (fuel : ℕ) (s s2 : SimState),
    loopRun t fuel s = some (s2, false) → ¬ hitNow s2 t ∧ oob s2 := by
  intro fuel
  induction fuel with
  | zero => intro s s2 h; simp [loopRun] at h
  | succ n ih =>
    intro s s2 h
    rw [loopRun_succ] at h
    split_ifs at h with h1 h2
    · simp at h
    · simp only [Option.some.injEq, Prod.mk.injEq] at h
      obtain ⟨rfl, -⟩ := h
      exact ⟨h1, h2⟩
    · exact ih (tick s) s2 h

/-- If some tick within the fuel budget satisfies a terminal condition, the
loop returns. -/
theorem loopRun_isSome_of_cond (t : ℚ × ℚ) : ∀ (fuel : ℕ) (s : SimState),
    (∃ m, 1 ≤ m ∧ m ≤ fuel ∧ (hitNow (tick^[m] s) t ∨ oob (tick^[m] s))) →
    (loopRun t fuel s).isSome := by
  intro fuel
  induction fuel with
  | zero =>
    rintro s ⟨m, h1, h2, -⟩
    omega
  | succ n ih =>
    rintro s ⟨m, h1, h2, h3⟩
    rw [loopRun_succ]
    split_ifs with hh ho
    · rfl
    · rfl
    · apply ih (tick s)
      have hm2 : 2 ≤ m := by
        by_contra hcon
        have hm1 : m = 1 := by omega
        subst hm1
        simp only [Function.iterate_one] at h3
        rcases h3 with h | h
        · exact hh h
        · exact ho h
      refine ⟨m - 1, by omega, by omega, ?_⟩
      have hiter : tick^[m-1] (tick s) = tick^[m] s := by
        rw [← Function.iterate_succ_apply]
        congr 1
        omega
      rw [hiter]
      exact h3

/-- Shared concrete evaluation: the flight launched from the start position
with velocity `(60, 0)` (action `(-1, 1)`: angle 0°, power 60) against a
target at `(500, 300)` leaves the right edge after 13 ticks at
`(830, 589)` without hitting. -/
theorem firstFlight_eval :
    runStep start_pos (60, 0) (500, 300) 20 = some (⟨830, 589, 60, 13/2⟩, false) := by
  norm_num [runStep, loopRun_succ, tick, hitNow, oob, dist2, start_pos,
    width, height, gravity, target_radius]

/-! ### The claims -/

/-- C1: for every `step` call that returns, the reward is `100.0` when the
episode terminated as a hit and `-(final_distance / 100)` otherwise, where
`final_distance` is the Euclidean distance between arrow and target at the
tick termination was detected; consequently `reward == 100.0` iff `hit`. -/
theorem c1_reward_iff_hit (pos vel t : ℚ × ℚ) (fuel : ℕ) (s : SimState) (hit : Bool)
    (_h : runStep pos vel t fuel = some (s, hit)) :
    (hit = true → rewardOf t s hit = 100) ∧
    (hit = false → rewardOf t s hit = -1 * (finalDist s t / 100)) ∧
    (rewardOf t s hit = 100 ↔ hit = true) := by
  cases hit with
  | true =>
    refine ⟨fun _ => rfl, fun hf => by simp at hf, by simp [rewardOf]⟩
  | false =>
    have hs : 0 ≤ finalDist s t := Real.sqrt_nonneg _
    refine ⟨fun ht => by simp at ht, fun _ => by simp [rewardOf], ?_⟩
    simp only [rewardOf, Bool.false_eq_true, if_false, iff_false]
    intro heq
    have hd : 0 ≤ finalDist s t / 100 := by positivity
    linarith

/-- C1 witness: the theorem applied to a concrete returning `step` call. -/
theorem c1_reward_iff_hit_witness :
    runStep start_pos (60, 0) (500, 300) 20 = some (⟨830, 589, 60, 13/2⟩, false) ∧
    (rewardOf (500, 300) ⟨830, 589, 60, 13/2⟩ false = 100 ↔ false = true) :=
  ⟨firstFlight_eval,
   (c1_reward_iff_hit start_pos (60, 0) (500, 300) 20 ⟨830, 589, 60, 13/2⟩ false
      firstFlight_eval).2.2⟩

/-- C2: at the terminal state of every `step` call, exactly one of the two
terminal conditions holds — hit (distance below `target_radius + 10 = 30`)
or out-of-bounds — with the hit condition checked first each tick, and for
every target position produced by `reset` (coordinates in `[300, 750)` and
`[50, 400)`) the two conditions are mutually exclusive. -/
theorem c2_exactly_one (tx ty : ℚ) (ht1 : 300 ≤ tx) (ht2 : tx < 750)
    (ht3 : 50 ≤ ty) (ht4 : ty < 400) (pos vel : ℚ × ℚ) (fuel : ℕ)
    (s : SimState) (hit : Bool) (h : runStep pos vel (tx, ty) fuel = some (s, hit)) :
    (hit = true → hitNow s (tx, ty) ∧ ¬ oob s) ∧
    (hit = false → ¬ hitNow s (tx, ty) ∧ oob s) ∧
    (∀ s2 : SimState, hitNow s2 (tx, ty) → ¬ oob s2) := by
  have h2 : loopRun (tx, ty) fuel ⟨pos.1, pos.2, vel.1, vel.2⟩ = some (s, hit) := h
  have excl : ∀ s2 : SimState, hitNow s2 (tx, ty) → ¬ oob s2 := by
    intro s2 hh ho
    rw [hitNow, dist2] at hh
    norm_num [target_radius] at hh
    have hx2 : (s2.px - tx)^2 < 900 := by nlinarith [sq_nonneg (s2.py - ty)]
    have hy2 : (s2.py - ty)^2 < 900 := by nlinarith [sq_nonneg (s2.px - tx)]
    rcases ho with h1 | h1 | h1 | h1
    · rw [width] at h1
      nlinarith [mul_pos (show (0:ℚ) < s2.px - tx - 50 by linarith)
        (show (0:ℚ) < s2.px - tx + 50 by linarith)]
    · nlinarith [mul_pos (show (0:ℚ) < tx - s2.px - 300 by linarith)
        (show (0:ℚ) < tx - s2.px + 300 by linarith)]
    · rw [height] at h1
      nlinarith [mul_pos (show (0:ℚ) < s2.py - ty - 200 by linarith)
        (show (0:ℚ) < s2.py - ty + 200 by linarith)]
    · nlinarith [mul_pos (show (0:ℚ) < ty - s2.py - 150 by linarith)
        (show (0:ℚ) < ty - s2.py + 150 by linarith)]
  refine ⟨?_, ?_, excl⟩
  · intro ht
    subst ht
    have hh := loopRun_hit (tx, ty) fuel _ s h2
    exact ⟨hh, excl s hh⟩
  · intro ht
    subst ht
    exact loopRun_miss (tx, ty) fuel _ s h2

/-- C2 witness: the theorem applied to a concrete returning `step` call. -/
theorem c2_exactly_one_witness :
    runStep start_pos (60, 0) (500, 300) 20 = some (⟨830, 589, 60, 13/2⟩, false) ∧
    (¬ hitNow ⟨830, 589, 60, 13/2⟩ (500, 300) ∧ oob ⟨830, 589, 60, 13/2⟩) :=
  ⟨firstFlight_eval,
   (c2_exactly_one 500 300 (by norm_num) (by norm_num) (by norm_num) (by norm_num)
      start_pos (60, 0) 20 _ false firstFlight_eval).2.1 rfl⟩

/-- C3: on every integration tick the new position equals the old position
plus the old (pre-gravity) velocity; gravity is added to the vertical
velocity only afterwards within the same tick, and the horizontal velocity
is never changed during flight. -/
theorem c3_semi_implicit_euler (s : SimState) (n : ℕ) :
    (tick^[n+1] s).px = (tick^[n] s).px + (tick^[n] s).vx ∧
    (tick^[n+1] s).py = (tick^[n] s).py + (tick^[n] s).vy ∧
    (tick^[n+1] s).vy = (tick^[n] s).vy + gravity ∧
    (tick^[n+1] s).vx = s.vx := by
  refine ⟨?_, ?_, ?_, ?_⟩ <;>
    simp [Function.iterate_succ_apply', tick, vx_iterate]

/-- C6 counterexample: `np.interp` clamps outside the sample range instead
of extrapolating, so `raw_angle = 2` maps to exactly 85 degrees (not beyond)
and `raw_power = 2` maps to exactly 60 (not beyond). -/
theorem c6_counterexample :
    angleDeg 2 = 85 ∧ powerVal 2 = 60 ∧ ¬ (85 < angleDeg 2) ∧ ¬ (60 < powerVal 2) := by
  norm_num [angleDeg, powerVal, interp]

/-- Below the left sample point `np.interp` returns the left value. -/
theorem interp_left {x x0 x1 y0 y1 : ℚ} (h : x ≤ x0) :
    interp x x0 x1 y0 y1 = y0 := by
  rw [interp, if_pos h]

/-- Above the right sample point `np.interp` returns the right value. -/
theorem interp_right {x x0 x1 y0 y1 : ℚ} (h0 : x0 < x1) (h : x1 ≤ x) :
    interp x x0 x1 y0 y1 = y1 := by
  rw [interp, if_neg (by linarith), if_pos h]

/-- Between the sample points `np.interp` is the linear interpolation. -/
theorem interp_mid {x x0 x1 y0 y1 : ℚ} (h0 : x0 < x1) (hl : x0 ≤ x) (hr : x ≤ x1) :
    interp x x0 x1 y0 y1 = y0 + (x - x0) * (y1 - y0) / (x1 - x0) := by
  rw [interp]
  split_ifs with h1 h2
  · have hx : x = x0 := le_antisymm h1 hl
    subst hx
    ring
  · have hx : x = x1 := le_antisymm hr h2
    subst hx
    have hne : x - x0 ≠ 0 := sub_ne_zero.mpr (ne_of_gt h0)
    rw [mul_comm (x - x0) (y1 - y0), mul_div_assoc, div_self hne, mul_one]
    ring
  · rfl

/-- C6 amended: out-of-range action components are accepted without error,
but `np.interp` clamps them to the endpoint values (`≤ -1` maps to 0° / 15,
`≥ 1` maps to 85° / 60); inside `[-1, 1]` the map is the linear
interpolation. -/
theorem c6_amended_clamped (x : ℚ) :
    (x ≤ -1 → angleDeg x = 0 ∧ powerVal x = 15) ∧
    (1 ≤ x → angleDeg x = 85 ∧ powerVal x = 60) ∧
    (-1 ≤ x → x ≤ 1 →
      angleDeg x = 85 * (x + 1) / 2 ∧ powerVal x = 15 + 45 * (x + 1) / 2) := by
  have h01 : (-1 : ℚ) < 1 := by norm_num
  refine ⟨fun h => ⟨interp_left h, interp_left h⟩,
          fun h => ⟨interp_right h01 h, interp_right h01 h⟩,
          fun hl hr => ⟨?_, ?_⟩⟩
  · rw [angleDeg, interp_mid h01 hl hr]
    ring
  · rw [powerVal, interp_mid h01 hl hr]
    ring

/-- C6 amended witness: the clamping evaluated at the out-of-range inputs
`2` and `-2`. -/
theorem c6_amended_clamped_witness :
    ((1:ℚ) ≤ 2 ∧ angleDeg 2 = 85 ∧ powerVal 2 = 60) ∧
    ((-2:ℚ) ≤ -1 ∧ angleDeg (-2) = 0 ∧ powerVal (-2) = 15) :=
  ⟨⟨by norm_num, (c6_amended_clamped 2).2.1 (by norm_num)⟩,
   ⟨by norm_num, (c6_amended_clamped (-2)).1 (by norm_num)⟩⟩

set_option maxRecDepth 4096 in
/-- C4 (code bug): the source's integration loop is `while True:` with no
tick counter and no error path — its only exits are the hit and
out-of-bounds `break`s, both returning a normal terminal `StepResult`.
Evaluating the code at a concrete input: the same normal terminal result is
returned under any fuel budget (the embedding's fuel is an artifact; the
result type, faithful to the source, has no configuration-error variant). -/
theorem c4_no_tick_cap_normal_return :
    runStep start_pos (60, 0) (500, 300) 20 = some (⟨830, 589, 60, 13/2⟩, false) ∧
    runStep start_pos (60, 0) (500, 300) 100 = some (⟨830, 589, 60, 13/2⟩, false) := by
  constructor
  · exact firstFlight_eval
  · norm_num [runStep, loopRun_succ, tick, hitNow, oob, dist2, start_pos,
      width, height, gravity, target_radius]

/-- With gravity `1/2`, the vertical position eventually exceeds the world
height: discrete free fall grows quadratically. -/
theorem exists_py_beyond (s : SimState) :
    ∃ n : ℕ, 1 ≤ n ∧ height < (tick^[n] s).py := by
  obtain ⟨n, hn⟩ := exists_nat_gt (4 * |s.vy| + 4 * |600 - s.py| + 5)
  have hA0 : (0:ℚ) ≤ |s.vy| := abs_nonneg _
  have hB0 : (0:ℚ) ≤ |600 - s.py| := abs_nonneg _
  refine ⟨n, ?_, ?_⟩
  · by_contra hcon
    have hn0 : n = 0 := by omega
    subst hn0
    simp only [Nat.cast_zero] at hn
    linarith
  · rw [py_iterate, height, gravity]
    have hvy : -|s.vy| ≤ s.vy := neg_abs_le _
    have hpy : 600 - s.py ≤ |600 - s.py| := le_abs_self _
    have hn' : 4 * |s.vy| + 4 * |600 - s.py| + 5 < (n:ℚ) := hn
    have h1 : |600 - s.py| + 1 < ((n:ℚ) - 1) / 4 - |s.vy| := by linarith
    have h2 : (1:ℚ) ≤ (n:ℚ) := by linarith
    have h3 : 1 * (|600 - s.py| + 1) ≤ (n:ℚ) * (((n:ℚ) - 1) / 4 - |s.vy|) :=
      mul_le_mul h2 (le_of_lt h1) (by linarith) (by linarith)
    have hexp : (n:ℚ) * (((n:ℚ) - 1) / 4 - |s.vy|)
        = (n:ℚ) * ((n:ℚ) - 1) / 4 - (n:ℚ) * |s.vy| := by ring
    rw [hexp] at h3
    have hNvy : (n:ℚ) * (-|s.vy|) ≤ (n:ℚ) * s.vy :=
      mul_le_mul_of_nonneg_left hvy (by linarith)
    nlinarith

/-- C5: for every action and every state reachable after a reset, the
integration loop inside `step` terminates — with gravity fixed at `0.5` the
vertical position eventually exceeds the world height (or another terminal
condition triggers earlier), so `step` always returns. -/
theorem c5_step_always_returns (pos vel t : ℚ × ℚ) :
    ∃ fuel : ℕ, (runStep pos vel t fuel).isSome := by
  obtain ⟨n, hn1, hn2⟩ := exists_py_beyond ⟨pos.1, pos.2, vel.1, vel.2⟩
  refine ⟨n, loopRun_isSome_of_cond t n _ ⟨n, hn1, le_refl n, Or.inr ?_⟩⟩
  exact Or.inr (Or.inr (Or.inl hn2))

/-- C7 counterexample: after a completed `step` (arrow left at its terminal
position `(830, 589)`), a second `step` without an intervening `reset` is
accepted and returns another normal terminated `StepResult` — it is not
surfaced as a usage error. -/
theorem c7_counterexample :
    stepCall (some ⟨(500, 300), start_pos, (0, 0)⟩) (60, 0) 20
      = some (CallResult.normal ⟨(500, 300), (830, 589), (60, 13/2)⟩ false) ∧
    stepCall (some ⟨(500, 300), (830, 589), (60, 13/2)⟩) (60, 0) 20
      = some (CallResult.normal ⟨(500, 300), (890, 589), (60, 1/2)⟩ false) := by
  constructor <;>
    norm_num [stepCall, stepEnv, runStep, loopRun_succ, tick, hitNow, oob, dist2,
      start_pos, width, height, gravity, target_radius]

/-- C7 amended: calling `step` before any `reset` fails with an attribute
error (the per-episode attributes do not exist yet), which is distinct from
any normal `StepResult`; but calling `step` again without an intervening
`reset` is not surfaced as an error — any initialized environment produces a
normal result, never the error outcome. -/
theorem c7_amended_no_phase_tracking :
    (∀ (v : ℚ × ℚ) (fuel : ℕ), stepCall none v fuel = some CallResult.attrError) ∧
    (∀ (e : Env) (v : ℚ × ℚ) (fuel : ℕ) (r : CallResult),
      stepCall (some e) v fuel = some r → r ≠ CallResult.attrError) := by
  refine ⟨fun v fuel => rfl, fun e v fuel r h => ?_⟩
  cases hcase : stepEnv e v fuel with
  | none =>
    simp only [stepCall, hcase, Option.map_none'] at h
    exact Option.noConfusion h
  | some p =>
    simp only [stepCall, hcase, Option.map_some', Option.some.injEq] at h
    subst h
    intro habs
    exact CallResult.noConfusion habs

/-- C7 amended witness: both halves of the amended claim at concrete
inputs — `step` before `reset` errors, `step` on an initialized environment
(here: the post-step state of `c7_counterexample`) yields a non-error
result. -/
theorem c7_amended_witness :
    stepCall none (60, 0) 5 = some CallResult.attrError ∧
    CallResult.normal ⟨(500, 300), (890, 589), (60, 1/2)⟩ false ≠ CallResult.attrError :=
  ⟨c7_amended_no_phase_tracking.1 (60, 0) 5,
   c7_amended_no_phase_tracking.2 ⟨(500, 300), (830, 589), (60, 13/2)⟩ (60, 0) 20 _
     (by norm_num [stepCall, stepEnv, runStep, loopRun_succ, tick, hitNow, oob, dist2,
        start_pos, width, height, gravity, target_radius])⟩

/-- C8: with the same integer seed, `reset` produces the same target
regardless of the machine's prior state (the generator is reseeded from the
seed alone), and the two coordinates are integers drawn from
`[300, width - 50) = [300, 750)` and `[50, height - 200) = [50, 400)`. -/
theorem c8_reset_deterministic (m1 m2 : Machine) (seed : ℕ) :
    ∃ e : Env, (resetWith m1 seed).env = some e ∧ (resetWith m2 seed).env = some e ∧
      ∃ a b : ℕ, e.target = ((a : ℚ), (b : ℚ)) ∧
        300 ≤ a ∧ a < 750 ∧ 50 ≤ b ∧ b < 400 := by
  refine ⟨_, rfl, rfl,
    (rngIntegers (rngInit seed) 300 (800 - 50)).1,
    (rngIntegers (rngIntegers (rngInit seed) 300 (800 - 50)).2 50 (600 - 200)).1,
    rfl, ?_, ?_, ?_, ?_⟩
  · simp only [rngIntegers]
    omega
  · simp only [rngIntegers]
    omega
  · simp only [rngIntegers]
    omega
  · simp only [rngIntegers]
    omega

/-- The concrete environment used to witness the observation claim. -/
def obsEnv : Env := ⟨(500, 300), (400, 300), (0, 0)⟩

/-- C9: after any reset (target in the generator's sub-ranges), every
observation component for an in-bounds arrow lies in `[0, 1]`; each
component is the raw coordinate divided by the world dimension with no
clamping, and an arrow beyond the right or bottom bound yields a component
strictly greater than 1. -/
theorem c9_obs_normalized (e : Env)
    (ht1 : 300 ≤ e.target.1) (ht2 : e.target.1 < 750)
    (ht3 : 50 ≤ e.target.2) (ht4 : e.target.2 < 400) :
    ((0 ≤ e.arrowPos.1 ∧ e.arrowPos.1 ≤ width ∧ 0 ≤ e.arrowPos.2 ∧ e.arrowPos.2 ≤ height) →
      0 ≤ (getObs e).1 ∧ (getObs e).1 ≤ 1 ∧
      0 ≤ (getObs e).2.1 ∧ (getObs e).2.1 ≤ 1 ∧
      0 ≤ (getObs e).2.2.1 ∧ (getObs e).2.2.1 ≤ 1 ∧
      0 ≤ (getObs e).2.2.2 ∧ (getObs e).2.2.2 ≤ 1) ∧
    (width < e.arrowPos.1 → 1 < (getObs e).1) ∧
    (height < e.arrowPos.2 → 1 < (getObs e).2.1) ∧
    (getObs e).1 = e.arrowPos.1 / width ∧
    (getObs e).2.1 = e.arrowPos.2 / height ∧
    (getObs e).2.2.1 = e.target.1 / width ∧
    (getObs e).2.2.2 = e.target.2 / height := by
  have hw : (0:ℚ) < width := by norm_num [width]
  have hh : (0:ℚ) < height := by norm_num [height]
  have hw750 : (750:ℚ) ≤ width := by norm_num [width]
  have hh400 : (400:ℚ) ≤ height := by norm_num [height]
  simp only [getObs]
  refine ⟨?_, ?_, ?_, trivial, trivial, trivial, trivial⟩
  · rintro ⟨h1, h2, h3, h4⟩
    exact ⟨div_nonneg h1 hw.le, (div_le_one hw).mpr h2,
           div_nonneg h3 hh.le, (div_le_one hh).mpr h4,
           div_nonneg (by linarith) hw.le, (div_le_one hw).mpr (by linarith),
           div_nonneg (by linarith) hh.le, (div_le_one hh).mpr (by linarith)⟩
  · intro h1
    exact (one_lt_div hw).mpr h1
  · intro h1
    exact (one_lt_div hh).mpr h1

/-- C9 witness: the theorem evaluated at a concrete in-bounds environment. -/
theorem c9_obs_normalized_witness :
    ((300:ℚ) ≤ obsEnv.target.1 ∧ obsEnv.target.1 < 750 ∧
      50 ≤ obsEnv.target.2 ∧ obsEnv.target.2 < 400) ∧
    (0 ≤ (getObs obsEnv).1 ∧ (getObs obsEnv).1 ≤ 1 ∧
     0 ≤ (getObs obsEnv).2.1 ∧ (getObs obsEnv).2.1 ≤ 1 ∧
     0 ≤ (getObs obsEnv).2.2.1 ∧ (getObs obsEnv).2.2.1 ≤ 1 ∧
     0 ≤ (getObs obsEnv).2.2.2 ∧ (getObs obsEnv).2.2.2 ≤ 1) :=
  ⟨⟨by norm_num [obsEnv], by norm_num [obsEnv], by norm_num [obsEnv], by norm_num [obsEnv]⟩,
   (c9_obs_normalized obsEnv (by norm_num [obsEnv]) (by norm_num [obsEnv])
      (by norm_num [obsEnv]) (by norm_num [obsEnv])).1
     ⟨by norm_num [obsEnv], by norm_num [obsEnv, width],
      by norm_num [obsEnv], by norm_num [obsEnv, height]⟩⟩

/-- The power map is strictly monotone on `[-1, 1]`. -/
theorem powerVal_mono {r1 r2 : ℚ} (h1 : -1 ≤ r1) (h12 : r1 < r2) (h2 : r2 ≤ 1) :
    powerVal r1 < powerVal r2 := by
  have h01 : (-1:ℚ) < 1 := by norm_num
  rw [powerVal, powerVal, interp_mid h01 h1 (by linarith), interp_mid h01 (by linarith) h2]
  linarith

/-- C10 amended: holding the angle fixed (any positive horizontal factor
`c`, modelling `cos` of the launch angle), increasing the raw power within
`[-1, 1]` strictly increases the launch power and hence the horizontal
distance traveled from the launch point after any fixed positive number of
ticks.  (The distance to the *terminal* position is not monotone — see the
counterexample.) -/
theorem c10_amended_travel_mono_per_tick (r1 r2 c vy : ℚ) (n : ℕ)
    (h1 : -1 ≤ r1) (h12 : r1 < r2) (h2 : r2 ≤ 1) (hc : 0 < c) (hn : 1 ≤ n) :
    powerVal r1 < powerVal r2 ∧
    (tick^[n] ⟨start_pos.1, start_pos.2, c * powerVal r1, vy⟩).px - start_pos.1
      < (tick^[n] ⟨start_pos.1, start_pos.2, c * powerVal r2, vy⟩).px - start_pos.1 := by
  have hp := powerVal_mono h1 h12 h2
  refine ⟨hp, ?_⟩
  rw [px_iterate, px_iterate]
  dsimp only
  have hn' : (1:ℚ) ≤ (n:ℚ) := by exact_mod_cast hn
  have hv : c * powerVal r1 < c * powerVal r2 := mul_lt_mul_of_pos_left hp hc
  have := mul_lt_mul_of_pos_left hv (show (0:ℚ) < (n:ℚ) by linarith)
  linarith

/-- C10 amended witness: the amended monotonicity at concrete inputs. -/
theorem c10_amended_witness :
    powerVal (-1/2 : ℚ) < powerVal (1/2 : ℚ) ∧
    (tick^[1] ⟨start_pos.1, start_pos.2, 1 * powerVal (-1/2 : ℚ), 0⟩).px - start_pos.1
      < (tick^[1] ⟨start_pos.1, start_pos.2, 1 * powerVal (1/2 : ℚ), 0⟩).px - start_pos.1 :=
  c10_amended_travel_mono_per_tick (-1/2) (1/2) 1 0 1 (by norm_num) (by norm_num)
    (by norm_num) (by norm_num) (by norm_num)

/-- C10 counterexample: with the angle fixed at 0° (`raw_angle = -1`) and
target `(500, 300)`, raw powers `67/75 < 202/225` (both in `[-1, 1]`, powers
57.6 and 57.7) both terminate out-of-bounds without hitting, yet the larger
power travels a strictly SHORTER horizontal distance to its terminal
position (750.1 vs 806.4): the faster arrow crosses the right wall one tick
earlier and overshoots less. -/
theorem c10_counterexample :
    (67/75 : ℚ) < 202/225 ∧ (-1 : ℚ) ≤ 67/75 ∧ (202/225 : ℚ) ≤ 1 ∧
    initVel (-1) (67/75) = (((powerVal (67/75) : ℚ) : ℝ), 0) ∧
    initVel (-1) (202/225) = (((powerVal (202/225) : ℚ) : ℝ), 0) ∧
    runStep start_pos (powerVal (67/75), 0) (500, 300) 20
      = some (⟨4282/5, 1191/2, 288/5, 7⟩, false) ∧
    runStep start_pos (powerVal (202/225), 0) (500, 300) 20
      = some (⟨8001/10, 589, 577/10, 13/2⟩, false) ∧
    ¬ ((4282/5 : ℚ) - start_pos.1 < (8001/10 : ℚ) - start_pos.1) := by
  have h0 : angleDeg (-1) = 0 := by norm_num [angleDeg, interp]
  refine ⟨by norm_num, by norm_num, by norm_num, ?_, ?_, ?_, ?_, ?_⟩
  · simp [initVel, h0, Real.cos_zero, Real.sin_zero]
  · simp [initVel, h0, Real.cos_zero, Real.sin_zero]
  · norm_num [runStep, powerVal, interp, loopRun_succ, tick, hitNow, oob, dist2,
      start_pos, width, height, gravity, target_radius]
  · norm_num [runStep, powerVal, interp, loopRun_succ, tick, hitNow, oob, dist2,
      start_pos, width, height, gravity, target_radius]
  · norm_num [start_pos, height]

end Archery
